import Mathlib

/-!
Verification development for the tiramisu auto-scheduler driver and the
Halide-to-coli translator.

Part I embeds `src/auto_scheduler/tiramisu_auto_scheduler.cpp`
(`auto_scheduler::auto_scheduler`, `find_schedule`, `apply_best_schedule`).

Part II embeds `src/coli_codegen_from_halide.cpp`
(`halide_type_to_coli_type` and the `HalideToColi` visitor).

Conventions of the embedding:
* C++ objects reached through pointers are records; virtual member functions
  are fields of the record.
* A C++ exception thrown by a collaborator is a value `Except.error`; the
  driver has no handler, so an error ends the member function.
* Everything a collaborator may read or change besides its arguments lives in
  an explicit world value of type `W`.
* The order of the collaborator calls is recorded in a log.
-/

set_option linter.dupNamespace false

namespace tiramisu.auto_scheduler

/-- The schedule tree `syntax_tree`.  Its declaration is in a header that is
not part of the translated sources; the driver only touches the field
`evaluation`, everything else is the payload `body`. -/
structure syntax_tree (A F : Type) where
  body : A
  evaluation : F

/-- The abstract class `evaluator`: one virtual member `evaluate`, which may
throw and may change the world.  It scores the tree it is given and leaves
that tree as it is. -/
structure evaluator (A F W : Type) where
  evaluate : syntax_tree A F → W → Except String F × W

/-- The abstract class `search_method`: the base-class field `eval_func`
(unset until `set_eval_func` is called) and the virtual members that the
driver calls.  `search` receives the installed evaluation function, as the
C++ member function does through `this`. -/
structure search_method (A F W : Type) where
  eval_func : Option (evaluator A F W)
  search : Option (evaluator A F W) → syntax_tree A F → W → Except String Unit × W
  get_nb_explored_schedules : W → Nat
  get_best_evaluation : W → F
  get_best_ast : W → Option (syntax_tree A F)

/-- Modelled from the spec: `search_method::set_eval_func` is declared in a
header outside the translated sources; the orchestrator "wires a chosen
Search Method to a chosen Evaluator", so the call stores its argument as the
search method's evaluation function. -/
def search_method.set_eval_func {A F W : Type} (s : search_method A F W)
    (e : evaluator A F W) : search_method A F W :=
  { s with eval_func := some e }

/-- The class `auto_scheduler`.  `exec_evaluator` is a pointer member; `none`
stands for a pointer that no code has assigned. -/
structure auto_scheduler (P A F W : Type) where
  fct : P
  ast : syntax_tree A F
  searcher : search_method A F W
  eval_func : evaluator A F W
  exec_evaluator : Option (evaluator A F W)

/-- Calls made on the collaborators, in the order they happen. -/
inductive Call (A F : Type) where
  | exec_evaluate (t : syntax_tree A F)
  | eval_evaluate (t : syntax_tree A F)
  | search (t : syntax_tree A F)
  | get_nb_explored_schedules
  | get_best_evaluation
  | get_best_ast
  | print_ast (t : syntax_tree A F)

/-- Lines written to `std::cout`. -/
inductive Line (A F : Type) where
  | nb_explored_schedules (n : Nat)
  | best_evaluation (v : F)
  | initial_exec_time (v : F)
  | search_time_ms (d : Int)
  | ast (t : syntax_tree A F)
  | best_schedule_exec_time (v : F)

/-- What a member function leaves behind: the world, the call log and the
standard output. -/
structure Run (A F W : Type) where
  world : W
  log : List (Call A F)
  cout : List (Line A F)

/-- Record a call. -/
def Run.call {A F W : Type} (r : Run A F W) (c : Call A F) : Run A F W :=
  { r with log := r.log ++ [c] }

/-- Write a line. -/
def Run.print {A F W : Type} (r : Run A F W) (l : Line A F) : Run A F W :=
  { r with cout := r.cout ++ [l] }

/-- Replace the world. -/
def Run.setWorld {A F W : Type} (r : Run A F W) (w : W) : Run A F W :=
  { r with world := w }

/-- The message used when a member function dereferences a pointer that holds
no object. -/
def null_dereference : String := "dereference of an unset pointer"

/-- The constructor `auto_scheduler::auto_scheduler(searcher, eval_func, fct)`.
The member initialiser list is `fct(fct), ast(fct), searcher(searcher),
eval_func(eval_func)`; the body calls `searcher->set_eval_func(eval_func)`.
`mk_ast` is the constructor `syntax_tree(fct)`, declared outside the
translated sources.  No initialiser and no statement assigns
`exec_evaluator`. -/
def auto_scheduler.construct {P A F W : Type} (mk_ast : P → syntax_tree A F)
    (searcher : search_method A F W) (eval_func : evaluator A F W) (fct : P) :
    auto_scheduler P A F W :=
  { fct := fct
    ast := mk_ast fct
    searcher := searcher.set_eval_func eval_func
    eval_func := eval_func
    exec_evaluator := none }

/-- The member function `auto_scheduler::find_schedule`.  `now` reads
`std::chrono::steady_clock` (in milliseconds) from the world.  The result is
the scheduler after the call, or the error that ended it, together with the
run. -/
def auto_scheduler.find_schedule {P A F W : Type} (now : W → Int)
    (self : auto_scheduler P A F W) (r : Run A F W) :
    Except String (auto_scheduler P A F W) × Run A F W :=
  match self.exec_evaluator with
  | none => (.error null_dereference, r)
  | some exec_evaluator =>
    -- float initial_exec_time = exec_evaluator->evaluate(ast);
    let r1 := r.call (.exec_evaluate self.ast)
    match exec_evaluator.evaluate self.ast r1.world with
    | (.error e, w1) => (.error e, r1.setWorld w1)
    | (.ok initial_exec_time, w1) =>
      let r2 := r1.setWorld w1
      let t_begin := now r2.world
      -- ast.evaluation = eval_func->evaluate(ast);
      let r3 := r2.call (.eval_evaluate self.ast)
      match self.eval_func.evaluate self.ast r3.world with
      | (.error e, w2) => (.error e, r3.setWorld w2)
      | (.ok v, w2) =>
        let self1 := { self with ast := { self.ast with evaluation := v } }
        -- searcher->search(ast);
        let r4 := (r3.setWorld w2).call (.search self1.ast)
        match self1.searcher.search self1.searcher.eval_func self1.ast r4.world with
        | (.error e, w3) => (.error e, r4.setWorld w3)
        | (.ok (), w3) =>
          let r5 := r4.setWorld w3
          let t_end := now r5.world
          let r6 := (r5.call .get_nb_explored_schedules).print
            (.nb_explored_schedules (self1.searcher.get_nb_explored_schedules r5.world))
          let r7 := (r6.call .get_best_evaluation).print
            (.best_evaluation (self1.searcher.get_best_evaluation r6.world))
          let r8 := r7.print (.initial_exec_time initial_exec_time)
          let r9 := r8.print (.search_time_ms (t_end - t_begin))
          (.ok self1, r9)

/-- The member function `auto_scheduler::apply_best_schedule`.  The result is
the measured time of the best schedule, which the function prints last. -/
def auto_scheduler.apply_best_schedule {P A F W : Type}
    (self : auto_scheduler P A F W) (r : Run A F W) :
    Except String F × Run A F W :=
  -- syntax_tree *best_ast = searcher->get_best_ast();
  let r1 := r.call .get_best_ast
  match self.searcher.get_best_ast r1.world with
  | none => (.error null_dereference, r1)
  | some best_ast =>
    -- best_ast->print_ast();
    let r2 := (r1.call (.print_ast best_ast)).print (.ast best_ast)
    match self.exec_evaluator with
    | none => (.error null_dereference, r2)
    | some exec_evaluator =>
      -- float best_sched_exec_time = exec_evaluator->evaluate(*best_ast);
      let r3 := r2.call (.exec_evaluate best_ast)
      match exec_evaluator.evaluate best_ast r3.world with
      | (.error e, w1) => (.error e, r3.setWorld w1)
      | (.ok best_sched_exec_time, w1) =>
        (.ok best_sched_exec_time,
          (r3.setWorld w1).print (.best_schedule_exec_time best_sched_exec_time))

/-- Whether a call is a call of `search_method::search`. -/
def Call.isSearch {A F : Type} : Call A F → Bool
  | .search _ => true
  | _ => false

/-- Whether a call is a call of `evaluate` on the member `eval_func`. -/
def Call.isEvalEvaluate {A F : Type} : Call A F → Bool
  | .eval_evaluate _ => true
  | _ => false

end tiramisu.auto_scheduler

/-! ## Part II: the translator from Halide IR to coli -/

namespace Halide

/-- Type codes of `halide_type_t`. -/
inductive halide_type_code_t where
  | halide_type_int
  | halide_type_uint
  | halide_type_float
  | halide_type_handle
  deriving DecidableEq, Repr

/-- The Halide class `Type`: a code, a bit width and a lane count. -/
structure Type_ where
  code : halide_type_code_t
  bits : Nat
  lanes : Nat
  deriving DecidableEq, Repr

/-- The Halide predicate `Type::is_uint`. -/
def Type_.is_uint (t : Type_) : Bool := t.code = .halide_type_uint

/-- The Halide predicate `Type::is_int`. -/
def Type_.is_int (t : Type_) : Bool := t.code = .halide_type_int

/-- The Halide predicate `Type::is_float`. -/
def Type_.is_float (t : Type_) : Bool := t.code = .halide_type_float

/-- The Halide predicate `Type::is_bool`: an unsigned integer of one bit. -/
def Type_.is_bool (t : Type_) : Bool := t.code = .halide_type_uint && t.bits = 1

/-- The Halide predicate `Type::is_handle`. -/
def Type_.is_handle (t : Type_) : Bool := t.code = .halide_type_handle

/-- The Halide constructor `Int(bits, lanes)`. -/
def Int_ (bits : Nat) (lanes : Nat) : Type_ := ⟨.halide_type_int, bits, lanes⟩

/-- The Halide constructor `UInt(bits, lanes)`. -/
def UInt_ (bits : Nat) (lanes : Nat) : Type_ := ⟨.halide_type_uint, bits, lanes⟩

/-- The Halide constructor `Float(bits, lanes)`. -/
def Float_ (bits : Nat) (lanes : Nat) : Type_ := ⟨.halide_type_float, bits, lanes⟩

/-- The Halide constructor `Bool(lanes)`. -/
def Bool_ (lanes : Nat) : Type_ := UInt_ 1 lanes

/-- The Halide constructor `Handle(lanes)`. -/
def Handle (lanes : Nat) : Type_ := ⟨.halide_type_handle, 64, lanes⟩

/-- The binary expression node kinds of the Halide IR; the visitor has one
`visit` overload for each. -/
inductive BinOp where
  | Add | Sub | Mul | Div | Mod | Min | Max
  | EQ | NE | LT | LE | GT | GE | And | Or
  deriving DecidableEq, Repr

/-- The kinds of `Call::CallType`. -/
inductive CallType where
  | Image | Extern | ExternCPlusPlus | PureExtern | Halide | Intrinsic | PureIntrinsic
  deriving DecidableEq, Repr

/-- Expression nodes of the Halide IR.  A value of this type is a defined
`Expr` handle. -/
inductive Expr where
  | IntImm (type : Type_) (value : Int)
  | UIntImm (type : Type_) (value : Nat)
  | FloatImm (type : Type_) (value : Rat)
  | StringImm (value : String)
  | Cast (type : Type_) (value : Expr)
  | Variable (type : Type_) (name : String)
  | Binary (op : BinOp) (a b : Expr)
  | Not (a : Expr)
  | Select (condition true_value false_value : Expr)
  | Load (type : Type_) (name : String) (index : Expr)
  | Ramp (base stride : Expr) (lanes : Nat)
  | Broadcast (value : Expr) (lanes : Nat)
  | Call (type : Type_) (name : String) (args : List Expr) (call_type : CallType)
  | Let (name : String) (value body : Expr)

/-- Statement nodes of the Halide IR.  A value of this type is a defined
`Stmt` handle. -/
inductive Stmt where
  | LetStmt (name : String) (value : Expr) (body : Stmt)
  | AssertStmt (condition message : Expr)
  | ProducerConsumer (name : String) (is_producer : Bool) (body : Stmt)
  | For (name : String) (min extent : Expr) (body : Stmt)
  | Store (name : String) (value index : Expr)
  | Provide (name : String) (values args : List Expr)
  | Allocate (name : String) (type : Type_) (extents : List Expr) (condition : Expr)
      (body : Stmt)
  | Free (name : String)
  | Realize (name : String) (types : List Type_) (bounds : List (Expr × Expr))
      (condition : Expr) (body : Stmt)
  | Block (first rest : Stmt)
  | IfThenElse (condition : Expr) (then_case else_case : Stmt)
  | Evaluate (value : Expr)

/-- Whether the comparison and logical node kinds, whose type is boolean. -/
def BinOp.isBoolean : BinOp → Bool
  | .EQ | .NE | .LT | .LE | .GT | .GE | .And | .Or => true
  | _ => false

/-- The member `type` that every Halide expression node carries, as the
`make` functions of the Halide IR compute it. -/
def Expr.type : Expr → Type_
  | .IntImm t _ => t
  | .UIntImm t _ => t
  | .FloatImm t _ => t
  | .StringImm _ => Handle 1
  | .Cast t _ => t
  | .Variable t _ => t
  | .Binary op a _ => if op.isBoolean then Bool_ a.type.lanes else a.type
  | .Not a => a.type
  | .Select _ t _ => t.type
  | .Load t _ _ => t
  | .Ramp base _ lanes => { base.type with lanes := lanes }
  | .Broadcast value lanes => { value.type with lanes := lanes }
  | .Call t _ _ _ => t
  | .Let _ _ body => body.type

/-- The Halide library function `is_const(Expr)`. -/
def is_const : Expr → Bool
  | .IntImm _ _ => true
  | .UIntImm _ _ => true
  | .FloatImm _ _ => true
  | .StringImm _ => true
  | .Cast _ value => is_const value
  | .Ramp base stride _ => is_const base && is_const stride
  | .Broadcast value _ => is_const value
  | _ => false

/-- The Halide library function `substitute(name, replacement, expr)`:
replace the free occurrences of the variable `name`; a `Let` that binds the
same name hides it in its body. -/
def substitute (name : String) (replacement : Expr) : Expr → Expr
  | .IntImm t v => .IntImm t v
  | .UIntImm t v => .UIntImm t v
  | .FloatImm t v => .FloatImm t v
  | .StringImm v => .StringImm v
  | .Cast t v => .Cast t (substitute name replacement v)
  | .Variable t n => if n = name then replacement else .Variable t n
  | .Binary op a b => .Binary op (substitute name replacement a) (substitute name replacement b)
  | .Not a => .Not (substitute name replacement a)
  | .Select c t f =>
      .Select (substitute name replacement c) (substitute name replacement t)
        (substitute name replacement f)
  | .Load t n i => .Load t n (substitute name replacement i)
  | .Ramp b s l => .Ramp (substitute name replacement b) (substitute name replacement s) l
  | .Broadcast v l => .Broadcast (substitute name replacement v) l
  | .Call t n args ct => .Call t n (substituteList name replacement args) ct
  | .Let n v body =>
      .Let n (substitute name replacement v)
        (if n = name then body else substitute name replacement body)
where
  /-- The same on a list of expressions. -/
  substituteList (name : String) (replacement : Expr) : List Expr → List Expr
    | [] => []
    | e :: es => substitute name replacement e :: substituteList name replacement es

/-- The Halide library function `substitute_in_all_lets(Expr)`: every `Let`
is replaced by its body with the (already processed) value substituted for
the bound name. -/
def substitute_in_all_lets : Expr → Expr
  | .IntImm t v => .IntImm t v
  | .UIntImm t v => .UIntImm t v
  | .FloatImm t v => .FloatImm t v
  | .StringImm v => .StringImm v
  | .Cast t v => .Cast t (substitute_in_all_lets v)
  | .Variable t n => .Variable t n
  | .Binary op a b => .Binary op (substitute_in_all_lets a) (substitute_in_all_lets b)
  | .Not a => .Not (substitute_in_all_lets a)
  | .Select c t f =>
      .Select (substitute_in_all_lets c) (substitute_in_all_lets t) (substitute_in_all_lets f)
  | .Load t n i => .Load t n (substitute_in_all_lets i)
  | .Ramp b s l => .Ramp (substitute_in_all_lets b) (substitute_in_all_lets s) l
  | .Broadcast v l => .Broadcast (substitute_in_all_lets v) l
  | .Call t n args ct => .Call t n (substituteAll args) ct
  | .Let n v body => substitute n (substitute_in_all_lets v) (substitute_in_all_lets body)
where
  /-- The same on a list of expressions. -/
  substituteAll : List Expr → List Expr
    | [] => []
    | e :: es => substitute_in_all_lets e :: substituteAll es

/-- The Halide library function `substitute_in_all_lets(Stmt)`: the same
mutator run over a statement; it rewrites the expressions inside the statement
and leaves every `LetStmt` in place. -/
def substitute_in_all_lets_stmt : Stmt → Stmt
  | .LetStmt n v body => .LetStmt n (substitute_in_all_lets v) (substitute_in_all_lets_stmt body)
  | .AssertStmt c m => .AssertStmt (substitute_in_all_lets c) (substitute_in_all_lets m)
  | .ProducerConsumer n p body => .ProducerConsumer n p (substitute_in_all_lets_stmt body)
  | .For n mn ext body =>
      .For n (substitute_in_all_lets mn) (substitute_in_all_lets ext)
        (substitute_in_all_lets_stmt body)
  | .Store n v i => .Store n (substitute_in_all_lets v) (substitute_in_all_lets i)
  | .Provide n values args =>
      .Provide n (substitute_in_all_lets.substituteAll values)
        (substitute_in_all_lets.substituteAll args)
  | .Allocate n t extents c body =>
      .Allocate n t (substitute_in_all_lets.substituteAll extents) (substitute_in_all_lets c)
        (substitute_in_all_lets_stmt body)
  | .Free n => .Free n
  | .Realize n ts bounds c body =>
      .Realize n ts
        (bounds.map fun b => (substitute_in_all_lets b.1, substitute_in_all_lets b.2))
        (substitute_in_all_lets c) (substitute_in_all_lets_stmt body)
  | .Block first rest => .Block (substitute_in_all_lets_stmt first) (substitute_in_all_lets_stmt rest)
  | .IfThenElse c t e =>
      .IfThenElse (substitute_in_all_lets c) (substitute_in_all_lets_stmt t)
        (substitute_in_all_lets_stmt e)
  | .Evaluate v => .Evaluate (substitute_in_all_lets v)

/-- The Halide class `Function`, a handle; `same_as` compares handles. -/
structure Function where
  id : Nat
  deriving DecidableEq, Repr

/-- The member `Function::same_as`. -/
def Function.same_as (f g : Function) : Bool := f.id = g.id

/-- How Halide prints an expression with `operator<<`; only variables, which
print as their name, are rendered exactly. -/
def print_expr : Expr → String
  | .Variable _ n => n
  | _ => "<expr>"

end Halide

namespace coli

/-- The enumeration `coli::primitive_t`. -/
inductive primitive_t where
  | p_uint8 | p_uint16 | p_uint32 | p_uint64
  | p_int8 | p_int16 | p_int32 | p_int64
  | p_float32 | p_float64
  | p_boolean
  | p_none
  deriving DecidableEq, Repr

/-- The enumeration `coli::op_t`, as far as the translator builds it. -/
inductive op_t where
  | o_add | o_sub | o_mul | o_div | o_mod | o_min | o_max
  | o_eq | o_ne | o_lt | o_le | o_gt | o_ge
  | o_logical_and | o_logical_or | o_logical_not | o_cond
  deriving DecidableEq, Repr

/-- The class `coli::expr` as a term: a default-constructed (undefined)
expression, the typed literals, operator applications, accesses to a
computation and loop indices.  A `float32` literal carries the value that is
handed to the `(float)` cast; the rounding of that cast is not represented. -/
inductive expr where
  | undefined
  | int8 (v : Int) | int16 (v : Int) | int32 (v : Int) | int64 (v : Int)
  | uint8 (v : Nat) | uint16 (v : Nat) | uint32 (v : Nat) | uint64 (v : Nat)
  | float32 (v : Rat) | float64 (v : Rat)
  | op (o : op_t) (operands : List expr)
  | access (computation : String) (indices : List expr)
  | idx (name : String)

/-- The function `coli::idx`. -/
def idx (name : String) : expr := .idx name

/-- The classes `coli::computation` and its subclass `coli::constant`, by the
constructor arguments the translator passes. -/
inductive computation where
  | compute (iteration_space : String) (e : expr) (schedule_this_computation : Bool)
      (t : primitive_t) (access : Option String)
  | constant (name : String) (value : expr) (t : primitive_t) (function_wide : Bool)
      (at_loop_level : Nat)

/-- The member `computation::set_access`. -/
def computation.set_access (c : computation) (access_str : String) : computation :=
  match c with
  | .compute d e sch t _ => .compute d e sch t (some access_str)
  | .constant n v t w l => .constant n v t w l

/-- The enumeration value `a_temporary` and its siblings. -/
inductive argument_t where
  | a_input | a_output | a_temporary
  deriving DecidableEq, Repr

/-- The class `coli::buffer`, by its constructor arguments. -/
structure buffer where
  name : String
  nb_dims : Nat
  dim_sizes : List expr
  type : primitive_t
  argt : argument_t

/-- Modelled from the spec: `coli::error(message, exit_program)` is declared in
`coli/debug.h`, outside the translated sources.  A translation error is "a
fatal, session-ending error", so with `exit_program` set the call does not
return; otherwise it only reports. -/
def error (str : String) (exit_program : Bool) : Except String Unit :=
  if exit_program then .error str else .ok ()

/-- The function `halide_type_to_coli_type`. -/
def halide_type_to_coli_type (type : Halide.Type_) : Except String primitive_t :=
  if type.is_uint then
    if type.bits = 8 then pure .p_uint8
    else if type.bits = 16 then pure .p_uint16
    else if type.bits = 32 then pure .p_uint32
    else pure .p_uint64
  else if type.is_int then
    if type.bits = 8 then pure .p_int8
    else if type.bits = 16 then pure .p_int16
    else if type.bits = 32 then pure .p_int32
    else pure .p_int64
  else if type.is_float then
    if type.bits = 32 then pure .p_float32
    else if type.bits = 64 then pure .p_float64
    else do
      error "Floats other than 32 and 64 bits are not suppored in Coli." true
      pure .p_none
  else if type.is_bool then pure .p_boolean
  else do
    error "Halide type cannot be translated to Coli type." true
    pure .p_none

/-- The helper template `to_string(const std::vector<T>&)`: the elements
separated by a comma and a blank, in square brackets. -/
def to_string {α : Type} (pr : α → String) (v : List α) : String :=
  "[" ++ body v ++ "]"
where
  /-- The loop of `to_string`: a separator after every element but the last. -/
  body : List α → String
    | [] => ""
    | [x] => pr x
    | x :: y :: rest => pr x ++ ", " ++ body (y :: rest)

/-- A `std::map<string, V>` as an association list. -/
abbrev map (V : Type) := List (String × V)

/-- The member `std::map::find`; `none` is `end()`. -/
def map.find {V : Type} (m : map V) (k : String) : Option V := m.lookup k

/-- The member `std::map::count`. -/
def map.count {V : Type} (m : map V) (k : String) : Nat :=
  if (m.find k).isSome then 1 else 0

/-- The member `std::map::emplace`: nothing is inserted when the key is
already present. -/
def map.emplace {V : Type} (m : map V) (k : String) (v : V) : map V :=
  if (m.find k).isSome then m else m ++ [(k, v)]

/-- The member `std::set<string>::insert`. -/
def set_insert (s : List String) (k : String) : List String :=
  if s.contains k then s else s ++ [k]

/-- The struct `HalideToColi::Loop`. -/
structure Loop where
  name : String
  min : Halide.Expr
  extent : Halide.Expr

/-- The class `HalideToColi`: the three constant references given to the
constructor and the mutable members.  The reference `func`, which the coli
constructors only receive as the owner of what they build, is left out. -/
structure HalideToColi where
  outputs : List Halide.Function
  env : map Halide.Function
  output_buffers : map buffer
  seen_lets : List String
  seen_buffer : List String
  temporary_buffers : map buffer
  expr : expr
  computation_list : map computation
  loop_dims : List Loop

/-- The constructor `HalideToColi(outputs, env, output_buffers, f)`: every
other member is default-constructed. -/
def HalideToColi.construct (outputs : List Halide.Function) (env : map Halide.Function)
    (output_buffers : map buffer) : HalideToColi :=
  { outputs := outputs
    env := env
    output_buffers := output_buffers
    seen_lets := []
    seen_buffer := []
    temporary_buffers := []
    expr := .undefined
    computation_list := []
    loop_dims := [] }

/-- Why a translation stopped: a call of `coli::error` with `exit_program`
set, or a failed `assert`. -/
inductive Abort where
  | error (message : String)
  | assertion (message : String)
  deriving DecidableEq, Repr

/-- Outcome of a visitor step: a value and the translator after the step, or
an abort together with the translator at that moment, or the exhaustion of
the recursion budget of the embedding. -/
inductive Result (α : Type) where
  | ok (a : α) (self : HalideToColi)
  | fatal (why : Abort) (self : HalideToColi)
  | out_of_fuel

/-- A member function of the visitor: it runs on the translator. -/
def TM (α : Type) : Type := HalideToColi → Result α

/-- Sequencing of member-function steps; an abort ends the sequence. -/
def TM.bind {α β : Type} (m : TM α) (f : α → TM β) : TM β := fun self =>
  match m self with
  | .ok a self1 => f a self1
  | .fatal why self1 => .fatal why self1
  | .out_of_fuel => .out_of_fuel

/-- A step that only returns a value. -/
def TM.pure {α : Type} (a : α) : TM α := fun self => .ok a self

instance : Monad TM where
  pure := TM.pure
  bind := TM.bind

/-- Read the translator. -/
def TM.get : TM HalideToColi := fun self => .ok self self

/-- Change the translator. -/
def TM.modify (f : HalideToColi → HalideToColi) : TM Unit := fun self => .ok () (f self)

/-- The C `assert(condition && message)`, with assertions compiled in: a false
condition aborts. -/
def TM.assert (condition : Bool) (message : String) : TM Unit := fun self =>
  if condition then .ok () self else .fatal (.assertion message) self

/-- Run a function that may call `coli::error`. -/
def TM.lift {α : Type} (x : Except String α) : TM α := fun self =>
  match x with
  | .ok a => .ok a self
  | .error message => .fatal (.error message) self

/-- The member `HalideToColi::error`. -/
def HalideToColi.error : TM Unit :=
  TM.lift (coli.error "Can't convert to coli expr." true)

/-- The member `HalideToColi::push_loop_dim`. -/
def HalideToColi.push_loop_dim (name : String) (min extent : Halide.Expr) : TM Unit :=
  TM.modify fun self => { self with loop_dims := self.loop_dims ++ [⟨name, min, extent⟩] }

/-- The member `HalideToColi::pop_loop_dim`. -/
def HalideToColi.pop_loop_dim : TM Unit :=
  TM.modify fun self => { self with loop_dims := self.loop_dims.dropLast }

/-- Assignment to the member `expr`. -/
def HalideToColi.set_expr (e : coli.expr) : TM Unit :=
  TM.modify fun self => { self with expr := e }

/-- The C casts `(int8_t)`, `(int16_t)`, `(int32_t)` of a 64-bit signed value. -/
def cast_int (bits : Nat) (v : Int) : Int := Int.bmod v (2 ^ bits)

/-- The C casts `(uint8_t)`, `(uint16_t)`, `(uint32_t)` of a 64-bit unsigned value. -/
def cast_uint (bits : Nat) (v : Nat) : Nat := v % 2 ^ bits

/-- What the `visit` overload of each binary node kind builds from the two
translated operands. -/
def binary (op : Halide.BinOp) (a b : expr) : expr :=
  match op with
  | .Add => .op .o_add [a, b]
  | .Sub => .op .o_sub [a, b]
  | .Mul => .op .o_mul [a, b]
  | .Div => .op .o_div [a, b]
  | .Mod => .op .o_mod [a, b]
  | .Min => .op .o_min [a, b]
  | .Max => .op .o_max [a, b]
  | .EQ => .op .o_eq [a, b]
  | .NE => .op .o_ne [a, b]
  | .LT => .op .o_lt [a, b]
  | .LE => .op .o_le [a, b]
  | .GT => .op .o_gt [a, b]
  | .GE => .op .o_ge [a, b]
  | .And => .op .o_logical_and [a, b]
  | .Or => .op .o_logical_or [a, b]

/-- A loop `for (i...) out[i] = mutate(in[i])` over a vector of expressions. -/
def mutate_each (mutate : Halide.Expr → TM expr) : List Halide.Expr → TM (List expr)
  | [] => pure []
  | e :: es => do
      let x ← mutate e
      let xs ← mutate_each mutate es
      pure (x :: xs)

/-- Whether an expression handle holds a `Variable` node (`as<Variable>() != NULL`). -/
def is_Variable : Halide.Expr → Bool
  | .Variable _ _ => true
  | _ => false

/-- Whether a statement handle holds a `Block` node (`as<Block>() != NULL`). -/
def is_Block : Halide.Stmt → Bool
  | .Block _ _ => true
  | _ => false

/-- The argument loop of `visit(const Provide *)`: each argument is asserted
to be a variable and then translated. -/
def provide_args (mutate : Halide.Expr → TM expr) : List Halide.Expr → TM (List expr)
  | [] => pure []
  | e :: es => do
      TM.assert (is_Variable e) "Expect args of provide to be loop index for now.\n"
      let x ← mutate e
      let xs ← provide_args mutate es
      pure (x :: xs)

/-- The `visit` overloads of `HalideToColi` for the expression nodes.  The
argument `mutate` is the member `mutate(Expr)` that the overloads call back. -/
def HalideToColi.visit_expr (mutate : Halide.Expr → TM coli.expr) : Halide.Expr → TM Unit
  | .IntImm type value =>
      if type.bits = 8 then set_expr (.int8 (cast_int 8 value))
      else if type.bits = 16 then set_expr (.int16 (cast_int 16 value))
      else if type.bits = 32 then set_expr (.int32 (cast_int 32 value))
      else set_expr (.int64 value)
  | .UIntImm type value =>
      if type.bits = 8 then set_expr (.uint8 (cast_uint 8 value))
      else if type.bits = 16 then set_expr (.uint16 (cast_uint 16 value))
      else if type.bits = 32 then set_expr (.uint32 (cast_uint 32 value))
      else set_expr (.uint64 value)
  | .FloatImm type value =>
      if type.bits = 32 then set_expr (.float32 value)
      else if type.bits = 64 then set_expr (.float64 value)
      else error
  | .Cast _ _ => error
  | .Variable _ name => do
      error
      let self ← TM.get
      match self.computation_list.find name with
      | some _ => set_expr (.access name [.int32 0])
      | none => set_expr (coli.idx name)
  | .Binary op a b => do
      let a ← mutate a
      let b ← mutate b
      set_expr (binary op a b)
  | .Not a => do
      let a ← mutate a
      set_expr (.op .o_logical_not [a])
  | .Select condition true_value false_value => do
      let cond ← mutate condition
      let t ← mutate true_value
      let f ← mutate false_value
      set_expr (.op .o_cond [cond, t, f])
  | .StringImm _ => error
  | .Ramp _ _ _ => error
  | .Broadcast _ _ => error
  | .Let name value body => do
      TM.assert (Halide.is_const value) "Only support let of constant for now.\n"
      let self ← TM.get
      TM.assert (self.seen_lets.contains name)
        "Redefinition of lets is not supported right now.\n"
      TM.modify fun self => { self with seen_lets := set_insert self.seen_lets name }
      let v ← mutate value
      let t ← TM.lift (halide_type_to_coli_type value.type)
      TM.modify fun self =>
        { self with computation_list :=
            self.computation_list.emplace name (.constant name v t true 0) }
      let b ← mutate body
      set_expr b
  | .Load _ _ _ => error
  | .Call _ name args call_type => do
      TM.assert (call_type = .Halide) "Only handle call to halide func for now.\n"
      let self ← TM.get
      TM.assert (self.computation_list.find name).isSome "Computation does not exist.\n"
      let xs ← mutate_each mutate args
      set_expr (.access name xs)

/-- The `visit` overloads of `HalideToColi` for the statement nodes.  The
arguments are the members `mutate(Expr)` and `mutate(Stmt)`. -/
def HalideToColi.visit_stmt (mutate : Halide.Expr → TM coli.expr)
    (mutate_stmt : Halide.Stmt → TM Unit) : Halide.Stmt → TM Unit
  | .AssertStmt _ _ => error
  | .Evaluate _ => error
  | .IfThenElse _ _ _ => error
  | .Free _ => error
  | .LetStmt name value body => do
      TM.assert (Halide.is_const value) "Only support let of constant for now.\n"
      let self ← TM.get
      TM.assert (self.seen_lets.contains name)
        "Redefinition of lets is not supported right now.\n"
      TM.modify fun self => { self with seen_lets := set_insert self.seen_lets name }
      let v ← mutate value
      let t ← TM.lift (halide_type_to_coli_type value.type)
      TM.modify fun self =>
        { self with computation_list :=
            self.computation_list.emplace name (.constant name v t true 0) }
      mutate_stmt body
  | .ProducerConsumer name _ body => do
      TM.assert (!is_Block body) "Does not currently handle update.\n"
      let self ← TM.get
      TM.assert (self.computation_list.count name = 0)
        "Find another computation with the same name.\n"
      let old_loop_dims := self.loop_dims
      mutate_stmt body
      TM.modify fun self => { self with loop_dims := old_loop_dims }
  | .For name min extent body => do
      push_loop_dim name min extent
      mutate_stmt body
      pop_loop_dim
  | .Store _ _ _ => error
  | .Provide name values args => do
      let self ← TM.get
      TM.assert (self.computation_list.count name = 0)
        "Find another computation with the same name.\n"
      TM.assert (self.temporary_buffers.count ("buff_" ++ name) != 0
          || self.output_buffers.count ("buff_" ++ name) != 0)
        "The buffer should have been allocated previously.\n"
      let _ ← provide_args mutate args
      TM.assert (values.length = 1) "Expect 1D store in the Provide node for now.\n"
      let xs ← mutate_each mutate values
      let dims_str := to_string Halide.print_expr args
      let iter_space_str := "[N]->\x7b" ++ name ++ dims_str ++ ": 0<=i<N and 0<=j<N\x7d"
      match xs, values with
      | x0 :: _, v0 :: _ =>
        let t ← TM.lift (halide_type_to_coli_type v0.type)
        let compute := computation.compute iter_space_str x0 false t none
        let access_str := "\x7b" ++ name ++ dims_str ++ "->" ++ "buff_" ++ name ++ dims_str ++ "\x7d"
        let compute := compute.set_access access_str
        TM.modify fun self =>
          { self with computation_list := self.computation_list.emplace name compute }
      | _, _ => TM.assert false "Expect 1D store in the Provide node for now.\n"
  | .Realize _ _ _ _ _ => error
  | .Block first rest => do
      mutate_stmt first
      mutate_stmt rest
  | .Allocate name type extents _ _ => do
      let self ← TM.get
      TM.assert (self.temporary_buffers.count ("buff_" ++ name) = 0)
        "Find duplicate temporary buffer allocation.\n"
      match self.env.find name with
      | none => TM.assert false "Cannot find function in env.\n"
      | some f =>
        let is_output := self.outputs.foldl (fun acc o => acc || o.same_as f) false
        TM.assert (!is_output) "Allocate should have been temporary buffer.\n"
        let xs ← mutate_each mutate extents
        let buffer_name := "buff_" ++ name
        let t ← TM.lift (halide_type_to_coli_type type)
        let produce_buffer : buffer := ⟨buffer_name, xs.length, xs, t, .a_temporary⟩
        TM.modify fun self =>
          { self with temporary_buffers :=
              self.temporary_buffers.emplace buffer_name produce_buffer }

/-- The member `coli::expr mutate(Expr e)`.  The first argument bounds the
depth of the calls between `mutate` and `visit`.  The assertion `e.defined()`
holds for every value of `Expr`. -/
def HalideToColi.mutate : Nat → Halide.Expr → TM coli.expr
  | 0, _ => fun _ => .out_of_fuel
  | fuel + 1, e => do
      let e := Halide.substitute_in_all_lets e
      visit_expr (mutate fuel) e
      let self ← TM.get
      pure self.expr

/-- The member `void mutate(Stmt s)`, with the same depth bound. -/
def HalideToColi.mutate_stmt : Nat → Halide.Stmt → TM Unit
  | 0, _ => fun _ => .out_of_fuel
  | fuel + 1, s => do
      let s := Halide.substitute_in_all_lets_stmt s
      visit_stmt (mutate fuel) (mutate_stmt fuel) s

/-- Whether an expression handle holds a `Let` node (`as<Let>() != NULL`). -/
def is_Let : Halide.Expr → Bool
  | .Let _ _ _ => true
  | _ => false

/-- A member function keeps the relation `R` when, each time it returns, the
translator before the call and the translator after it are related by `R`. -/
def TM.Keeps {α : Type} (R : HalideToColi → HalideToColi → Prop) (m : TM α) : Prop :=
  ∀ self a self1, m self = .ok a self1 → R self self1

/-- The second translator is the first one up to the member `expr`. -/
def HalideToColi.same_but_expr (a b : HalideToColi) : Prop :=
  b = { a with expr := b.expr }

/-- The second translator has the loop-dimension stack of the first one. -/
def HalideToColi.same_loop_dims (a b : HalideToColi) : Prop :=
  b.loop_dims = a.loop_dims

end coli

/-! ## Concrete inputs used to exercise the definitions -/

namespace tiramisu.auto_scheduler.sample

/-- An unscheduled tree: payload `0`, evaluation not yet assigned (`-1`). -/
def tree0 : syntax_tree Nat Int := ⟨0, -1⟩

/-- A scheduled tree that the sample search method reports as best. -/
def tree1 : syntax_tree Nat Int := ⟨1, 7⟩

/-- The constructor `syntax_tree(fct)` of the sample: every program gives `tree0`. -/
def mk_ast (_ : Unit) : syntax_tree Nat Int := tree0

/-- An execution evaluator: 40 for the unscheduled payload, 25 otherwise; each
measurement advances the world by ten. -/
def exec : evaluator Nat Int Nat :=
  ⟨fun t w => (.ok (if t.body = 0 then 40 else 25), w + 10)⟩

/-- A model evaluator: the constant score 7. -/
def model : evaluator Nat Int Nat := ⟨fun _ w => (.ok 7, w + 1)⟩

/-- A model evaluator that cannot score any tree. -/
def broken_model : evaluator Nat Int Nat := ⟨fun _ w => (.error "cannot score", w)⟩

/-- A search method that explores nothing and reports `tree1`. -/
def searcher : search_method Nat Int Nat :=
  { eval_func := none
    search := fun _ _ w => (.ok (), w + 100)
    get_nb_explored_schedules := fun _ => 3
    get_best_evaluation := fun _ => 7
    get_best_ast := fun _ => some tree1 }

/-- The clock of the sample reads the world. -/
def now (w : Nat) : Int := w

/-- A run that starts with an empty log and empty output. -/
def run0 : Run Nat Int Nat := ⟨0, [], []⟩

/-- The sample scheduler right after construction. -/
def fresh : auto_scheduler Unit Nat Int Nat :=
  auto_scheduler.construct mk_ast searcher model ()

/-- The sample scheduler with the execution evaluator installed. -/
def ready : auto_scheduler Unit Nat Int Nat :=
  { fresh with exec_evaluator := some exec }

/-- The sample scheduler with an evaluator that fails on every tree. -/
def ready_broken : auto_scheduler Unit Nat Int Nat :=
  { auto_scheduler.construct mk_ast searcher broken_model () with exec_evaluator := some exec }

/-- A search method whose effect depends on what it is given: `search` adds to
the world 100, the evaluation of the tree it receives and, when an evaluation
function is installed, 1000; the number of explored schedules is read from
the world. -/
def tracking_searcher : search_method Nat Int Nat :=
  { eval_func := none
    search := fun ev t w => (.ok (), w + 100 + t.evaluation.toNat + (if ev.isSome then 1000 else 0))
    get_nb_explored_schedules := fun w => w
    get_best_evaluation := fun w => w
    get_best_ast := fun _ => some tree1 }

/-- The scheduler built on `tracking_searcher`, with the execution evaluator
installed. -/
def ready_tracking : auto_scheduler Unit Nat Int Nat :=
  { auto_scheduler.construct mk_ast tracking_searcher model () with
    exec_evaluator := some exec }

end tiramisu.auto_scheduler.sample

namespace coli.sample

open Halide

/-- A translator right after construction: one output function (handle 1),
an environment that knows the function `f` (handle 0), no output buffers. -/
def fresh : HalideToColi := HalideToColi.construct [⟨1⟩] [("f", ⟨0⟩)] []

/-- A translator in which the constant `x` has been recorded. -/
def with_x : HalideToColi :=
  { fresh with
    seen_lets := ["x"]
    computation_list := [("x", .constant "x" (.int32 1) .p_int32 true 0)] }

/-- The 32-bit integer literal `1`. -/
def one : Expr := .IntImm (Int_ 32 1) 1

/-- The variable `x`. -/
def var_x : Expr := .Variable (Int_ 32 1) "x"

/-- The statement `let x = 1 in free x`. -/
def let_x : Stmt := .LetStmt "x" one (.Free "x")

/-- The expression `let x = 1 in 1`. -/
def let_x_expr : Expr := .Let "x" one one

/-- An allocation of `f` with one extent, `4`, whose body is an `Evaluate`
node, a kind the translator does not support. -/
def alloc_f : Stmt :=
  .Allocate "f" (Int_ 32 1) [.IntImm (Int_ 32 1) 4] (.UIntImm (Bool_ 1) 1)
    (.Evaluate (.IntImm (Int_ 32 1) 0))

/-- The temporary buffer that translating `alloc_f` creates. -/
def buff_f : buffer := ⟨"buff_f", 1, [.int32 4], .p_int32, .a_temporary⟩

/-- A translator inside a loop `k` from 0 with extent 4. -/
def in_loop : HalideToColi :=
  { fresh with loop_dims := [⟨"k", .IntImm (Int_ 32 1) 0, .IntImm (Int_ 32 1) 4⟩] }

/-- The statement `produce g, for i from 0 with extent 4, allocate f`. -/
def loop_nest : Stmt :=
  .ProducerConsumer "g" true
    (.For "i" (.IntImm (Int_ 32 1) 0) (.IntImm (Int_ 32 1) 4) alloc_f)

/-- The translator after the translation of `alloc_f` on `fresh`. -/
def after_alloc_f : HalideToColi :=
  { fresh with temporary_buffers := [("buff_f", buff_f)], expr := .int32 4 }

/-- An allocation of `f` whose element type is a 16-bit float, with one
extent, `4`. -/
def alloc_f16 : Stmt :=
  .Allocate "f" (Float_ 16 1) [.IntImm (Int_ 32 1) 4] (.UIntImm (Bool_ 1) 1) (.Free "f")

end coli.sample

/-! ## Theorems, Part I: the auto-scheduler driver -/

namespace tiramisu.auto_scheduler

variable {P A F W : Type}

/-- C1: in `find_schedule`, when the execution evaluator measures the initial
tree (giving `t0` and the world `w1`) and the search evaluator then scores it
in `w1` (giving `v` and the world `w2`), the calls made are, in this order:
the baseline measurement on the initial tree, the scoring of the initial tree,
and one `search` on the initial tree with `evaluation` already set to `v`;
whatever follows is a read-out, never a second `search`.  The search is the
search method's own `search`, applied with its installed evaluation function
to that tree in the world `w2`: when it returns with the world `w3`, the
scheduler's tree is the initial tree with `evaluation = v`, the world left
behind is `w3` and the report is read from `w3` (with the baseline `t0` and the
time from `w1` to `w3`); when it fails with `e`, `find_schedule` fails with `e`
in the world `w3` and reports nothing. -/
theorem find_schedule_scores_then_searches_once (now : W → Int)
    (self : auto_scheduler P A F W) (r : Run A F W) (x : evaluator A F W)
    (t0 v : F) (w1 w2 : W)
    (hx : self.exec_evaluator = some x)
    (h1 : x.evaluate self.ast r.world = (.ok t0, w1))
    (h2 : self.eval_func.evaluate self.ast w1 = (.ok v, w2)) :
    (∃ rest, (self.find_schedule now r).2.log =
        r.log ++ [Call.exec_evaluate self.ast, Call.eval_evaluate self.ast,
          Call.search { self.ast with evaluation := v }] ++ rest ∧
        ∀ c ∈ rest, c = Call.get_nb_explored_schedules ∨ c = Call.get_best_evaluation) ∧
    (∀ w3, self.searcher.search self.searcher.eval_func
          { self.ast with evaluation := v } w2 = (.ok (), w3) →
        (self.find_schedule now r).1 =
          .ok { self with ast := { self.ast with evaluation := v } }) ∧
    (∀ w3, self.searcher.search self.searcher.eval_func
          { self.ast with evaluation := v } w2 = (.ok (), w3) →
        self.find_schedule now r =
          (.ok { self with ast := { self.ast with evaluation := v } },
            { world := w3
              log := r.log ++ [Call.exec_evaluate self.ast, Call.eval_evaluate self.ast,
                Call.search { self.ast with evaluation := v },
                Call.get_nb_explored_schedules, Call.get_best_evaluation]
              cout := r.cout ++
                [Line.nb_explored_schedules (self.searcher.get_nb_explored_schedules w3),
                  Line.best_evaluation (self.searcher.get_best_evaluation w3),
                  Line.initial_exec_time t0,
                  Line.search_time_ms (now w3 - now w1)] })) ∧
    (∀ e w3, self.searcher.search self.searcher.eval_func
          { self.ast with evaluation := v } w2 = (.error e, w3) →
        self.find_schedule now r =
          (.error e,
            { world := w3
              log := r.log ++ [Call.exec_evaluate self.ast, Call.eval_evaluate self.ast,
                Call.search { self.ast with evaluation := v }]
              cout := r.cout })) := by
  refine ⟨?_, ?_, ?_, ?_⟩
  · cases h3 : self.searcher.search self.searcher.eval_func
        { self.ast with evaluation := v } w2 with
    | mk res w3 =>
      cases res with
      | error e =>
        refine ⟨[], ?_, by simp⟩
        simp [auto_scheduler.find_schedule, hx, Run.call, Run.setWorld, h1, h2, h3]
      | ok u =>
        refine ⟨[Call.get_nb_explored_schedules, Call.get_best_evaluation], ?_, by simp⟩
        simp [auto_scheduler.find_schedule, hx, Run.call, Run.setWorld, Run.print, h1, h2, h3]
  · intro w3 h3
    simp [auto_scheduler.find_schedule, hx, Run.call, Run.setWorld, Run.print, h1, h2, h3]
  · intro w3 h3
    simp [auto_scheduler.find_schedule, hx, Run.call, Run.setWorld, Run.print, h1, h2, h3]
  · intro e w3 h3
    simp [auto_scheduler.find_schedule, hx, Run.call, Run.setWorld, Run.print, h1, h2, h3]

/-- Witness for C1 on the sample scheduler with the tracking search method:
the execution evaluator measures 40 (world 10), the model scores 7 (world 11),
and `search`, given the tree with evaluation 7 and the installed evaluation
function in world 11, leaves the world 1118, from which the report is read. -/
theorem find_schedule_scores_then_searches_once_witness :
    sample.ready_tracking.exec_evaluator = some sample.exec ∧
    sample.exec.evaluate sample.ready_tracking.ast sample.run0.world = (.ok 40, 10) ∧
    sample.ready_tracking.eval_func.evaluate sample.ready_tracking.ast 10 = (.ok 7, 11) ∧
    sample.ready_tracking.searcher.search sample.ready_tracking.searcher.eval_func
      { sample.ready_tracking.ast with evaluation := 7 } 11 = (.ok (), 1118) ∧
    sample.ready_tracking.find_schedule sample.now sample.run0 =
      (.ok { sample.ready_tracking with
          ast := { sample.ready_tracking.ast with evaluation := 7 } },
        { world := 1118
          log := [Call.exec_evaluate sample.tree0, Call.eval_evaluate sample.tree0,
            Call.search { sample.tree0 with evaluation := 7 },
            Call.get_nb_explored_schedules, Call.get_best_evaluation]
          cout := [Line.nb_explored_schedules 1118, Line.best_evaluation 1118,
            Line.initial_exec_time 40, Line.search_time_ms 1108] }) :=
  ⟨rfl, rfl, rfl, rfl,
    (find_schedule_scores_then_searches_once sample.now sample.ready_tracking sample.run0
      sample.exec 40 7 10 11 rfl rfl rfl).2.2.1 1118 rfl⟩

/-- C2: if the evaluation of the initial tree fails with error `e` in
`find_schedule`, in the baseline measurement of the execution evaluator or in
the scoring by the search evaluator, then `find_schedule` ends with the error
`e` and none of the calls it made is a `search`. -/
theorem find_schedule_initial_evaluation_failure_is_fatal (now : W → Int)
    (self : auto_scheduler P A F W) (r : Run A F W) (x : evaluator A F W) (e : String)
    (hx : self.exec_evaluator = some x)
    (h : (∃ w1, x.evaluate self.ast r.world = (.error e, w1)) ∨
         (∃ t0 w1 w2, x.evaluate self.ast r.world = (.ok t0, w1) ∧
            self.eval_func.evaluate self.ast w1 = (.error e, w2))) :
    (self.find_schedule now r).1 = .error e ∧
    ∃ made, (self.find_schedule now r).2.log = r.log ++ made ∧
      ∀ c ∈ made, c.isSearch = false := by
  rcases h with ⟨w1, h1⟩ | ⟨t0, w1, w2, h1, h2⟩
  · refine ⟨?_, [Call.exec_evaluate self.ast], ?_, ?_⟩
    · simp [auto_scheduler.find_schedule, hx, Run.call, Run.setWorld, h1]
    · simp [auto_scheduler.find_schedule, hx, Run.call, Run.setWorld, h1]
    · simp [Call.isSearch]
  · refine ⟨?_, [Call.exec_evaluate self.ast, Call.eval_evaluate self.ast], ?_, ?_⟩
    · simp [auto_scheduler.find_schedule, hx, Run.call, Run.setWorld, h1, h2]
    · simp [auto_scheduler.find_schedule, hx, Run.call, Run.setWorld, h1, h2]
    · simp [Call.isSearch]

/-- Witness for C2: the sample scheduler whose search evaluator cannot score. -/
theorem find_schedule_initial_evaluation_failure_is_fatal_witness :
    sample.ready_broken.exec_evaluator = some sample.exec ∧
    ((∃ w1, sample.exec.evaluate sample.ready_broken.ast sample.run0.world =
          (.error "cannot score", w1)) ∨
      (∃ t0 w1 w2, sample.exec.evaluate sample.ready_broken.ast sample.run0.world =
          (.ok t0, w1) ∧
        sample.ready_broken.eval_func.evaluate sample.ready_broken.ast w1 =
          (.error "cannot score", w2))) ∧
    (sample.ready_broken.find_schedule sample.now sample.run0).1 = .error "cannot score" ∧
    ∃ made, (sample.ready_broken.find_schedule sample.now sample.run0).2.log =
        sample.run0.log ++ made ∧
      ∀ c ∈ made, c.isSearch = false :=
  ⟨rfl, Or.inr ⟨40, 10, 10, rfl, rfl⟩,
    find_schedule_initial_evaluation_failure_is_fatal sample.now sample.ready_broken
      sample.run0 sample.exec "cannot score" rfl (Or.inr ⟨40, 10, 10, rfl, rfl⟩)⟩

/-- C3 as stated fails: on the sample inputs the constructor leaves the
execution evaluator undefined, and `find_schedule` called directly after
construction takes no baseline measurement. -/
theorem construct_exec_evaluator_undefined_example :
    (auto_scheduler.construct sample.mk_ast sample.searcher sample.model ()).exec_evaluator.isSome
      = false ∧
    ((auto_scheduler.construct sample.mk_ast sample.searcher sample.model ()).find_schedule
      sample.now sample.run0).2.log = [] := ⟨rfl, rfl⟩

/-- C3, amended: the constructor takes three collaborators, the search method
`s`, the evaluator `e` and the program `f`, and not the execution-based
evaluator.  For every construction, afterwards `fct` is `f`, `ast` is the tree
built from `f`, `searcher` is `s` with `e` installed as its evaluation
function, `eval_func` is `e`, and the execution evaluator is not assigned. -/
theorem construct_leaves_exec_evaluator_unset (mk_ast : P → syntax_tree A F)
    (s : search_method A F W) (e : evaluator A F W) (f : P) :
    (auto_scheduler.construct mk_ast s e f).fct = f ∧
    (auto_scheduler.construct mk_ast s e f).ast = mk_ast f ∧
    (auto_scheduler.construct mk_ast s e f).searcher = s.set_eval_func e ∧
    (auto_scheduler.construct mk_ast s e f).searcher.eval_func = some e ∧
    (auto_scheduler.construct mk_ast s e f).eval_func = e ∧
    (auto_scheduler.construct mk_ast s e f).exec_evaluator = none :=
  ⟨rfl, rfl, rfl, rfl, rfl, rfl⟩

/-- C4: `apply_best_schedule` asks the search method for its best tree `b`,
prints `b`, and measures `b` with the execution evaluator; these are all the
calls it makes, so the search evaluator is not consulted.  When the
measurement returns `t`, the function reports `t`. -/
theorem apply_best_schedule_measures_best_ast (self : auto_scheduler P A F W)
    (r : Run A F W) (x : evaluator A F W) (b : syntax_tree A F)
    (hx : self.exec_evaluator = some x)
    (hb : self.searcher.get_best_ast r.world = some b) :
    (self.apply_best_schedule r).2.log =
      r.log ++ [Call.get_best_ast, Call.print_ast b, Call.exec_evaluate b] ∧
    (∀ c ∈ (self.apply_best_schedule r).2.log.drop r.log.length, c.isEvalEvaluate = false) ∧
    (∀ t w1, x.evaluate b r.world = (.ok t, w1) →
      (self.apply_best_schedule r).1 = .ok t ∧
      (self.apply_best_schedule r).2.cout =
        r.cout ++ [Line.ast b, Line.best_schedule_exec_time t]) := by
  have hlog : (self.apply_best_schedule r).2.log =
      r.log ++ [Call.get_best_ast, Call.print_ast b, Call.exec_evaluate b] := by
    simp only [auto_scheduler.apply_best_schedule, Run.call, Run.setWorld, Run.print, hb, hx]
    rcases h1 : x.evaluate b r.world with ⟨_ | t, w1⟩ <;> simp
  refine ⟨hlog, ?_, ?_⟩
  · rw [hlog]
    simp [Call.isEvalEvaluate]
  · intro t w1 h1
    simp [auto_scheduler.apply_best_schedule, Run.call, Run.setWorld, Run.print, hb, hx, h1]

/-- Witness for C4 on the sample scheduler: the best tree is `tree1`, measured
at 25 by the execution evaluator. -/
theorem apply_best_schedule_measures_best_ast_witness :
    sample.ready.exec_evaluator = some sample.exec ∧
    sample.ready.searcher.get_best_ast sample.run0.world = some sample.tree1 ∧
    (sample.ready.apply_best_schedule sample.run0).2.log =
      sample.run0.log ++ [Call.get_best_ast, Call.print_ast sample.tree1,
        Call.exec_evaluate sample.tree1] ∧
    (∀ c ∈ (sample.ready.apply_best_schedule sample.run0).2.log.drop sample.run0.log.length,
      c.isEvalEvaluate = false) ∧
    (∀ t w1, sample.exec.evaluate sample.tree1 sample.run0.world = (.ok t, w1) →
      (sample.ready.apply_best_schedule sample.run0).1 = .ok t ∧
      (sample.ready.apply_best_schedule sample.run0).2.cout =
        sample.run0.cout ++ [Line.ast sample.tree1, Line.best_schedule_exec_time t]) :=
  ⟨rfl, rfl,
    apply_best_schedule_measures_best_ast sample.ready sample.run0 sample.exec sample.tree1
      rfl rfl⟩

/-- C5: after `auto_scheduler(s, e, f)` the evaluation function installed in
the search method is `e`, the scheduler's own evaluator is `e`, its program is
`f` and its initial tree is the one built from `f`; hence the evaluator with
which `find_schedule` scores the initial tree is the one handed to `search`. -/
theorem construct_wires_evaluator (mk_ast : P → syntax_tree A F)
    (s : search_method A F W) (e : evaluator A F W) (f : P) :
    (auto_scheduler.construct mk_ast s e f).searcher = s.set_eval_func e ∧
    (auto_scheduler.construct mk_ast s e f).searcher.eval_func = some e ∧
    (auto_scheduler.construct mk_ast s e f).eval_func = e ∧
    (auto_scheduler.construct mk_ast s e f).fct = f ∧
    (auto_scheduler.construct mk_ast s e f).ast = mk_ast f ∧
    (auto_scheduler.construct mk_ast s e f).searcher.eval_func =
      some (auto_scheduler.construct mk_ast s e f).eval_func ∧
    (auto_scheduler.construct mk_ast s e f).searcher.search = s.search :=
  ⟨rfl, rfl, rfl, rfl, rfl, rfl, rfl⟩

end tiramisu.auto_scheduler

/-! ## Theorems, Part II: the translator from Halide IR -/

namespace coli

open Halide

/-- C7: `halide_type_to_coli_type` maps an unsigned integer type of 8, 16, 32
or 64 bits to `p_uint8` .. `p_uint64`, a signed integer type of these widths
to `p_int8` .. `p_int64`, a 32-bit float to `p_float32` and a 64-bit float to
`p_float64` (for any lane count); and it fails exactly when the type is a
float of another width or is none of unsigned integer, signed integer, float
or boolean. -/
theorem halide_type_to_coli_type_kind_and_width (lanes : Nat) (t : Type_) :
    (halide_type_to_coli_type (UInt_ 8 lanes) = .ok .p_uint8 ∧
     halide_type_to_coli_type (UInt_ 16 lanes) = .ok .p_uint16 ∧
     halide_type_to_coli_type (UInt_ 32 lanes) = .ok .p_uint32 ∧
     halide_type_to_coli_type (UInt_ 64 lanes) = .ok .p_uint64) ∧
    (halide_type_to_coli_type (Int_ 8 lanes) = .ok .p_int8 ∧
     halide_type_to_coli_type (Int_ 16 lanes) = .ok .p_int16 ∧
     halide_type_to_coli_type (Int_ 32 lanes) = .ok .p_int32 ∧
     halide_type_to_coli_type (Int_ 64 lanes) = .ok .p_int64) ∧
    (halide_type_to_coli_type (Float_ 32 lanes) = .ok .p_float32 ∧
     halide_type_to_coli_type (Float_ 64 lanes) = .ok .p_float64) ∧
    ((∃ message, halide_type_to_coli_type t = .error message) ↔
      ((t.is_float = true ∧ t.bits ≠ 32 ∧ t.bits ≠ 64) ∨
       (t.is_uint = false ∧ t.is_int = false ∧ t.is_float = false ∧ t.is_bool = false))) := by
  refine ⟨⟨rfl, rfl, rfl, rfl⟩, ⟨rfl, rfl, rfl, rfl⟩, ⟨rfl, rfl⟩, ?_⟩
  obtain ⟨code, bits, l⟩ := t
  cases code <;>
    simp only [halide_type_to_coli_type, Type_.is_uint, Type_.is_int, Type_.is_float,
      Type_.is_bool, error] <;>
    split_ifs <;> simp_all [pure, Except.pure, bind, Except.bind]

/-- C8, the behaviour of the code: a boolean type (an unsigned integer of one
bit, any lane count) satisfies `is_uint`, so the first branch answers and the
result is `p_uint64`, not `p_boolean`. -/
theorem halide_type_to_coli_type_bool_is_uint64 (lanes : Nat) :
    (Bool_ lanes).is_bool = true ∧
    halide_type_to_coli_type (Bool_ lanes) = .ok .p_uint64 ∧
    halide_type_to_coli_type (Bool_ lanes) ≠ .ok .p_boolean := by
  refine ⟨rfl, rfl, ?_⟩
  intro h
  cases h

/-- A call of `HalideToColi::error` aborts and leaves the translator as it is. -/
theorem HalideToColi.error_eq (self : HalideToColi) :
    HalideToColi.error self = .fatal (.error "Can't convert to coli expr.") self := rfl

/-- An expression that `is_const` accepts contains no `Let`, so
`substitute_in_all_lets` returns it unchanged. -/
theorem substitute_in_all_lets_of_is_const :
    ∀ e : Expr, is_const e = true → substitute_in_all_lets e = e
  | .IntImm _ _, _ => rfl
  | .UIntImm _ _, _ => rfl
  | .FloatImm _ _, _ => rfl
  | .StringImm _, _ => rfl
  | .Cast t v, h => by
      simp only [is_const] at h
      simp [substitute_in_all_lets, substitute_in_all_lets_of_is_const v h]
  | .Ramp b s l, h => by
      simp only [is_const, Bool.and_eq_true] at h
      simp [substitute_in_all_lets, substitute_in_all_lets_of_is_const b h.1,
        substitute_in_all_lets_of_is_const s h.2]
  | .Broadcast v l, h => by
      simp only [is_const] at h
      simp [substitute_in_all_lets, substitute_in_all_lets_of_is_const v h]
  | .Variable _ _, h => by simp [is_const] at h
  | .Binary _ _ _, h => by simp [is_const] at h
  | .Not _, h => by simp [is_const] at h
  | .Select _ _ _, h => by simp [is_const] at h
  | .Load _ _ _, h => by simp [is_const] at h
  | .Call _ _ _ _, h => by simp [is_const] at h
  | .Let _ _ _, h => by simp [is_const] at h

/-- C9, the behaviour of the code: for a `Let` or `LetStmt` with a constant
value whose name is not in `seen_lets`, as on a freshly constructed
translator, the visit is stopped by the assertion "Redefinition of lets is not
supported right now." and nothing is recorded; the same holds when the
statement is given to `mutate`. -/
theorem let_with_unseen_name_is_rejected (mutate : Expr → TM coli.expr)
    (mutate_stmt : Stmt → TM Unit) (self : HalideToColi) (name : String) (value : Expr)
    (hc : is_const value = true) (hn : self.seen_lets.contains name = false) :
    (∀ body, HalideToColi.visit_expr mutate (.Let name value body) self =
      .fatal (.assertion "Redefinition of lets is not supported right now.\n") self) ∧
    (∀ body, HalideToColi.visit_stmt mutate mutate_stmt (.LetStmt name value body) self =
      .fatal (.assertion "Redefinition of lets is not supported right now.\n") self) ∧
    (∀ fuel body, HalideToColi.mutate_stmt (fuel + 1) (.LetStmt name value body) self =
      .fatal (.assertion "Redefinition of lets is not supported right now.\n") self) := by
  have hn1 : name ∉ self.seen_lets := by simpa using hn
  refine ⟨fun body => ?_, fun body => ?_, fun fuel body => ?_⟩
  · simp [HalideToColi.visit_expr, bind, TM.bind, TM.assert, TM.get, hc, hn1]
  · simp [HalideToColi.visit_stmt, bind, TM.bind, TM.assert, TM.get, hc, hn1]
  · simp [HalideToColi.mutate_stmt, substitute_in_all_lets_stmt,
      substitute_in_all_lets_of_is_const value hc, HalideToColi.visit_stmt, bind, TM.bind,
      TM.assert, TM.get, hc, hn1]

/-- Witness for C9: `let x = 1` on a freshly constructed translator. -/
theorem let_with_unseen_name_is_rejected_witness :
    is_const sample.one = true ∧ sample.fresh.seen_lets.contains "x" = false ∧
    (∀ body, HalideToColi.visit_expr (HalideToColi.mutate 3) (.Let "x" sample.one body)
        sample.fresh =
      .fatal (.assertion "Redefinition of lets is not supported right now.\n") sample.fresh) ∧
    (∀ body, HalideToColi.visit_stmt (HalideToColi.mutate 3) (HalideToColi.mutate_stmt 3)
        (.LetStmt "x" sample.one body) sample.fresh =
      .fatal (.assertion "Redefinition of lets is not supported right now.\n") sample.fresh) ∧
    (∀ fuel body, HalideToColi.mutate_stmt (fuel + 1) (.LetStmt "x" sample.one body)
        sample.fresh =
      .fatal (.assertion "Redefinition of lets is not supported right now.\n") sample.fresh) :=
  ⟨rfl, rfl,
    let_with_unseen_name_is_rejected (HalideToColi.mutate 3) (HalideToColi.mutate_stmt 3)
      sample.fresh "x" sample.one rfl rfl⟩

/-- The other half of the same assertion: when the name is already in
`seen_lets`, the `Let` is accepted and translated. -/
theorem let_with_seen_name_is_accepted_example :
    HalideToColi.visit_expr (HalideToColi.mutate 3) sample.let_x_expr sample.with_x =
      .ok () { sample.with_x with expr := .int32 1 } := rfl

/-- C10 as stated fails: on the variable `x`, the translation yields no
expression, neither with `x` absent from `computation_list` nor with `x`
present in it. -/
theorem variable_translation_example :
    HalideToColi.mutate 1 sample.var_x sample.fresh =
      .fatal (.error "Can't convert to coli expr.") sample.fresh ∧
    HalideToColi.mutate 1 sample.var_x sample.with_x =
      .fatal (.error "Can't convert to coli expr.") sample.with_x ∧
    (¬ ∃ self, HalideToColi.mutate 1 sample.var_x sample.fresh = .ok (idx "x") self) ∧
    (¬ ∃ self, HalideToColi.mutate 1 sample.var_x sample.with_x =
      .ok (.access "x" [.int32 0]) self) := by
  refine ⟨rfl, rfl, ?_, ?_⟩
  · rintro ⟨self, h⟩
    cases h
  · rintro ⟨self, h⟩
    cases h

/-- C10, amended: for every `Variable` node and every translator, whatever
`computation_list` holds, the visit calls `error()` first and the translation
ends with the fatal error "Can't convert to coli expr."; no expression is
produced and the translator is unchanged. -/
theorem variable_translation_is_fatal (mutate : Expr → TM coli.expr) (type : Type_)
    (name : String) (self : HalideToColi) :
    HalideToColi.visit_expr mutate (.Variable type name) self =
      .fatal (.error "Can't convert to coli expr.") self ∧
    ∀ fuel, HalideToColi.mutate (fuel + 1) (.Variable type name) self =
      .fatal (.error "Can't convert to coli expr.") self := by
  refine ⟨?_, fun fuel => ?_⟩
  · simp [HalideToColi.visit_expr, bind, TM.bind, HalideToColi.error_eq]
  · simp [HalideToColi.mutate, substitute_in_all_lets, HalideToColi.visit_expr, bind, TM.bind,
      HalideToColi.error_eq]

/-- C6, the behaviour of the code: `visit(const Allocate *)` never translates
the body of the allocation, so the outcome is the same for every body; on the
sample allocation, whose body is an unsupported `Evaluate` node, the
translation of the whole tree succeeds and creates the buffer `buff_f`. -/
theorem allocate_body_is_not_translated (fuel : Nat) (name : String) (type : Type_)
    (extents : List Expr) (condition : Expr) (body body1 : Stmt) (self : HalideToColi) :
    HalideToColi.mutate_stmt fuel (.Allocate name type extents condition body) self =
      HalideToColi.mutate_stmt fuel (.Allocate name type extents condition body1) self ∧
    HalideToColi.mutate_stmt 2 sample.alloc_f sample.fresh =
      .ok () { sample.fresh with
        temporary_buffers := [("buff_f", sample.buff_f)], expr := .int32 4 } := by
  refine ⟨?_, rfl⟩
  cases fuel with
  | zero => rfl
  | succ n => simp [HalideToColi.mutate_stmt, substitute_in_all_lets_stmt, HalideToColi.visit_stmt]

/-- The argument loop of `visit(const Provide *)` on a non-empty argument list
aborts at its first element: either the element is not a `Variable`, or it is
one and its translation is the fatal conversion error. -/
theorem provide_args_cons_is_fatal (fuel : Nat) (a : Expr) (args : List Expr)
    (self : HalideToColi) :
    provide_args (HalideToColi.mutate (fuel + 1)) (a :: args) self =
        .fatal (.assertion "Expect args of provide to be loop index for now.\n") self ∨
      provide_args (HalideToColi.mutate (fuel + 1)) (a :: args) self =
        .fatal (.error "Can't convert to coli expr.") self := by
  cases a <;>
    simp [provide_args, bind, TM.bind, TM.assert, is_Variable, HalideToColi.mutate,
      substitute_in_all_lets, HalideToColi.visit_expr, HalideToColi.error_eq]

/-- At no call depth does the argument loop of `visit(const Provide *)` get
past the first element of a non-empty argument list. -/
theorem provide_args_cons_not_ok (n : Nat) (a : Expr) (args : List Expr)
    (self : HalideToColi) (xs : List expr) (self1 : HalideToColi) :
    provide_args (HalideToColi.mutate n) (a :: args) self ≠ .ok xs self1 := by
  cases n <;> cases a <;>
    simp [provide_args, bind, TM.bind, TM.assert, is_Variable, HalideToColi.mutate,
      substitute_in_all_lets, HalideToColi.visit_expr, HalideToColi.error_eq]

/-- C11: for every `Provide` node with a non-empty argument list and every
translator, the translation aborts (given a call depth of at least two, which
a `Provide` with a variable argument needs) and the translator at the abort is
the one before the call, so `computation_list` has gained nothing; the abort
is one of the assertions of the visit or, once the assertions hold and the
first argument is a `Variable`, the fatal conversion error raised by
translating that `Variable`.  At no call depth does the translation succeed. -/
theorem provide_with_arguments_is_fatal (fuel : Nat) (name : String) (values : List Expr)
    (a : Expr) (args : List Expr) (self : HalideToColi) :
    (∀ n self1, HalideToColi.mutate_stmt n (.Provide name values (a :: args)) self ≠
        .ok () self1) ∧
    ∃ why, HalideToColi.mutate_stmt (fuel + 2) (.Provide name values (a :: args)) self =
        .fatal why self ∧
      (why = .assertion "Find another computation with the same name.\n" ∨
       why = .assertion "The buffer should have been allocated previously.\n" ∨
       why = .assertion "Expect args of provide to be loop index for now.\n" ∨
       why = .error "Can't convert to coli expr.") := by
  refine ⟨fun n self1 => ?_, ?_⟩
  · cases n with
    | zero => simp [HalideToColi.mutate_stmt]
    | succ n =>
      simp only [HalideToColi.mutate_stmt, substitute_in_all_lets_stmt,
        substitute_in_all_lets.substituteAll, HalideToColi.visit_stmt, bind, TM.bind, TM.get,
        TM.assert]
      have hargs := provide_args_cons_not_ok n (substitute_in_all_lets a)
        (substitute_in_all_lets.substituteAll args) self
      cases h : provide_args (HalideToColi.mutate n) (substitute_in_all_lets a ::
          substitute_in_all_lets.substituteAll args) self with
      | ok xs s1 => exact absurd h (hargs xs s1)
      | fatal why s1 => split_ifs <;> simp [h]
      | out_of_fuel => split_ifs <;> simp [h]
  have hargs := provide_args_cons_is_fatal fuel (substitute_in_all_lets a)
    (substitute_in_all_lets.substituteAll args) self
  simp only [HalideToColi.mutate_stmt, substitute_in_all_lets_stmt,
    substitute_in_all_lets.substituteAll, HalideToColi.visit_stmt, bind, TM.bind, TM.get,
    TM.assert]
  by_cases h1 : self.computation_list.count name = 0
  · by_cases h2 : (self.temporary_buffers.count ("buff_" ++ name) != 0
        || self.output_buffers.count ("buff_" ++ name) != 0) = true
    · rcases hargs with h | h
      · exact ⟨.assertion "Expect args of provide to be loop index for now.\n",
          by simp [h1, h2, h], by simp⟩
      · exact ⟨.error "Can't convert to coli expr.", by simp [h1, h2, h], by simp⟩
    · exact ⟨.assertion "The buffer should have been allocated previously.\n",
        by simp [h1, h2], by simp⟩
  · exact ⟨.assertion "Find another computation with the same name.\n", by simp [h1], by simp⟩

section keeps

variable {R : HalideToColi → HalideToColi → Prop}

/-- A step that only returns a value keeps every reflexive relation. -/
theorem TM.Keeps.pure {α : Type} (hr : ∀ s, R s s) (a : α) :
    TM.Keeps R (Pure.pure a : TM α) := by
  intro self b self1 h
  cases h
  exact hr self

/-- Sequencing keeps a transitive relation that both steps keep. -/
theorem TM.Keeps.bind {α β : Type} (ht : ∀ a b c, R a b → R b c → R a c)
    {m : TM α} {f : α → TM β} (hm : TM.Keeps R m) (hf : ∀ a, TM.Keeps R (f a)) :
    TM.Keeps R (m >>= f) := by
  intro self b self2 h
  simp only [Bind.bind, TM.bind] at h
  cases hms : m self with
  | ok a self1 =>
    rw [hms] at h
    exact ht _ _ _ (hm _ _ _ hms) (hf a _ _ _ h)
  | fatal why self1 => rw [hms] at h; cases h
  | out_of_fuel => rw [hms] at h; cases h

/-- Reading the translator keeps every reflexive relation. -/
theorem TM.Keeps.get (hr : ∀ s, R s s) : TM.Keeps R TM.get := by
  intro self b self1 h
  cases h
  exact hr self

/-- An assertion keeps every reflexive relation. -/
theorem TM.Keeps.assert (hr : ∀ s, R s s) (c : Bool) (msg : String) :
    TM.Keeps R (TM.assert c msg) := by
  intro self b self1 h
  cases c <;> simp [TM.assert] at h
  obtain ⟨-, rfl⟩ := h
  exact hr self

/-- Running a function that may call `coli::error` keeps every reflexive relation. -/
theorem TM.Keeps.lift {α : Type} (hr : ∀ s, R s s) (x : Except String α) :
    TM.Keeps R (TM.lift x) := by
  intro self b self1 h
  cases x <;> simp [TM.lift] at h
  obtain ⟨-, rfl⟩ := h
  exact hr self

/-- The member `error` never returns, so it keeps every relation. -/
theorem TM.Keeps.error : TM.Keeps R HalideToColi.error := by
  intro self b self1 h
  rw [HalideToColi.error_eq] at h
  cases h

/-- A change of the translator keeps the relation when the change does. -/
theorem TM.Keeps.modify {f : HalideToColi → HalideToColi} (hf : ∀ s, R s (f s)) :
    TM.Keeps R (TM.modify f) := by
  intro self b self1 h
  cases h
  exact hf self

/-- The loop over a vector of expressions keeps what `mutate` keeps. -/
theorem TM.Keeps.mutate_each (hr : ∀ s, R s s) (ht : ∀ a b c, R a b → R b c → R a c)
    {mutate : Expr → TM expr} (hm : ∀ e, TM.Keeps R (mutate e)) :
    ∀ l, TM.Keeps R (mutate_each mutate l)
  | [] => TM.Keeps.pure hr _
  | e :: es => by
      unfold coli.mutate_each
      exact TM.Keeps.bind ht (hm e) fun x =>
        TM.Keeps.bind ht (TM.Keeps.mutate_each hr ht hm es) fun xs => TM.Keeps.pure hr _

/-- The argument loop of `Provide` keeps what `mutate` keeps. -/
theorem TM.Keeps.provide_args (hr : ∀ s, R s s) (ht : ∀ a b c, R a b → R b c → R a c)
    {mutate : Expr → TM expr} (hm : ∀ e, TM.Keeps R (mutate e)) :
    ∀ l, TM.Keeps R (provide_args mutate l)
  | [] => TM.Keeps.pure hr _
  | e :: es => by
      unfold coli.provide_args
      exact TM.Keeps.bind ht (TM.Keeps.assert hr _ _) fun _ =>
        TM.Keeps.bind ht (hm e) fun x =>
          TM.Keeps.bind ht (TM.Keeps.provide_args hr ht hm es) fun xs => TM.Keeps.pure hr _

end keeps

/-- Being equal up to `expr` is reflexive. -/
theorem HalideToColi.same_but_expr_refl (s : HalideToColi) : s.same_but_expr s := rfl

/-- Being equal up to `expr` is transitive. -/
theorem HalideToColi.same_but_expr_trans (a b c : HalideToColi)
    (hab : a.same_but_expr b) (hbc : b.same_but_expr c) : a.same_but_expr c := by
  unfold HalideToColi.same_but_expr at *
  rw [hbc, hab]

/-- Having the same loop-dimension stack is reflexive. -/
theorem HalideToColi.same_loop_dims_refl (s : HalideToColi) : s.same_loop_dims s := rfl

/-- Having the same loop-dimension stack is transitive. -/
theorem HalideToColi.same_loop_dims_trans (a b c : HalideToColi)
    (hab : a.same_loop_dims b) (hbc : b.same_loop_dims c) : a.same_loop_dims c := by
  unfold HalideToColi.same_loop_dims at *
  rw [hbc, hab]

/-- Translators equal up to `expr` have the same loop-dimension stack. -/
theorem HalideToColi.same_but_expr.same_loop_dims {a b : HalideToColi}
    (h : a.same_but_expr b) : a.same_loop_dims b := by
  unfold HalideToColi.same_but_expr at h
  unfold HalideToColi.same_loop_dims
  rw [h]

/-- An assignment to `expr` changes nothing else. -/
theorem TM.Keeps.set_expr (e : expr) :
    TM.Keeps HalideToColi.same_but_expr (HalideToColi.set_expr e) :=
  TM.Keeps.modify fun _ => rfl

/-- Substituting a replacement that is not a `Let` into an expression that is
not a `Let` does not give a `Let`. -/
theorem is_Let_substitute (name : String) (r : Expr) (hr : is_Let r = false) :
    ∀ e, is_Let e = false → is_Let (substitute name r e) = false := by
  intro e he
  cases e with
  | Variable t n =>
    simp only [substitute]
    split_ifs
    · exact hr
    · rfl
  | Let n v b => simp [is_Let] at he
  | _ => simp [substitute, is_Let]

/-- The result of `substitute_in_all_lets` is never a `Let` node. -/
theorem is_Let_substitute_in_all_lets : ∀ e, is_Let (substitute_in_all_lets e) = false
  | .IntImm _ _ => rfl
  | .UIntImm _ _ => rfl
  | .FloatImm _ _ => rfl
  | .StringImm _ => rfl
  | .Cast _ _ => by simp [substitute_in_all_lets, is_Let]
  | .Variable _ _ => rfl
  | .Binary _ _ _ => by simp [substitute_in_all_lets, is_Let]
  | .Not _ => by simp [substitute_in_all_lets, is_Let]
  | .Select _ _ _ => by simp [substitute_in_all_lets, is_Let]
  | .Load _ _ _ => by simp [substitute_in_all_lets, is_Let]
  | .Ramp _ _ _ => by simp [substitute_in_all_lets, is_Let]
  | .Broadcast _ _ => by simp [substitute_in_all_lets, is_Let]
  | .Call _ _ _ _ => by simp [substitute_in_all_lets, is_Let]
  | .Let n v b => by
      simp only [substitute_in_all_lets]
      exact is_Let_substitute n _ (is_Let_substitute_in_all_lets v) _
        (is_Let_substitute_in_all_lets b)

/-- The visit of an expression node other than `Let` changes at most `expr`,
provided the calls back into `mutate` do. -/
theorem HalideToColi.visit_expr_same_but_expr {mutate : Expr → TM coli.expr}
    (hm : ∀ e, TM.Keeps HalideToColi.same_but_expr (mutate e)) (e : Expr)
    (he : is_Let e = false) :
    TM.Keeps HalideToColi.same_but_expr (HalideToColi.visit_expr mutate e) := by
  have hr := HalideToColi.same_but_expr_refl
  have ht := HalideToColi.same_but_expr_trans
  cases e <;> simp only [is_Let] at he <;> simp only [HalideToColi.visit_expr]
  case Let => cases he
  all_goals
    repeat' first
      | exact TM.Keeps.set_expr _
      | exact TM.Keeps.error
      | exact TM.Keeps.get hr
      | exact TM.Keeps.assert hr _ _
      | exact TM.Keeps.mutate_each hr ht hm _
      | exact hm _
      | refine TM.Keeps.bind ht ?_ (fun _ => ?_)
      | split

/-- The member `mutate(Expr)` changes at most the member `expr`. -/
theorem HalideToColi.mutate_same_but_expr :
    ∀ fuel e, TM.Keeps HalideToColi.same_but_expr (HalideToColi.mutate fuel e)
  | 0, _ => by
      intro self a self1 h
      simp [HalideToColi.mutate] at h
  | fuel + 1, e => by
      unfold HalideToColi.mutate
      exact TM.Keeps.bind HalideToColi.same_but_expr_trans
        (HalideToColi.visit_expr_same_but_expr (HalideToColi.mutate_same_but_expr fuel) _
          (is_Let_substitute_in_all_lets e))
        fun _ => TM.Keeps.bind HalideToColi.same_but_expr_trans
          (TM.Keeps.get HalideToColi.same_but_expr_refl)
          fun _ => TM.Keeps.pure HalideToColi.same_but_expr_refl _

/-- The member `mutate(Expr)` leaves the loop-dimension stack as it is. -/
theorem HalideToColi.mutate_same_loop_dims (fuel : Nat) (e : Expr) :
    TM.Keeps HalideToColi.same_loop_dims (HalideToColi.mutate fuel e) :=
  fun self a self1 h => (HalideToColi.mutate_same_but_expr fuel e self a self1 h).same_loop_dims

/-- The visit of a `ProducerConsumer` node ends by restoring the stack saved
on entry, whatever the translation of the body did to it. -/
theorem HalideToColi.visit_ProducerConsumer_restores (mutate : Expr → TM coli.expr)
    (mutate_stmt : Stmt → TM Unit) (name : String) (is_producer : Bool) (body : Stmt)
    (self self1 : HalideToColi)
    (h : HalideToColi.visit_stmt mutate mutate_stmt (.ProducerConsumer name is_producer body)
      self = .ok () self1) :
    self1.loop_dims = self.loop_dims := by
  simp only [HalideToColi.visit_stmt, bind, TM.bind, TM.assert, TM.get, TM.modify] at h
  by_cases hb : (!is_Block body) = true
  · by_cases hc : self.computation_list.count name = 0
    · simp only [hb, hc, if_true, decide_True] at h
      cases hms : mutate_stmt body self with
      | ok a s2 =>
        simp only [hms] at h
        cases h
        rfl
      | fatal why s2 => simp [hms] at h
      | out_of_fuel => simp [hms] at h
    · simp [hb, hc] at h
  · simp [hb] at h

/-- The visit of a `For` node runs the translation of the body on the
translator with the loop pushed, and pops afterwards. -/
theorem HalideToColi.visit_For_eq (mutate : Expr → TM coli.expr)
    (mutate_stmt : Stmt → TM Unit) (name : String) (min extent : Expr) (body : Stmt)
    (self : HalideToColi) :
    HalideToColi.visit_stmt mutate mutate_stmt (.For name min extent body) self =
      (mutate_stmt body >>= fun _ => HalideToColi.pop_loop_dim)
        { self with loop_dims := self.loop_dims ++ [⟨name, min, extent⟩] } := by
  simp [HalideToColi.visit_stmt, bind, TM.bind, HalideToColi.push_loop_dim, TM.modify]

/-- The visit of a `For` node leaves the stack as it found it when the
translation of the body does. -/
theorem HalideToColi.visit_For_same_loop_dims (mutate : Expr → TM coli.expr)
    {mutate_stmt : Stmt → TM Unit} (name : String) (min extent : Expr) (body : Stmt)
    (hms : TM.Keeps HalideToColi.same_loop_dims (mutate_stmt body)) :
    TM.Keeps HalideToColi.same_loop_dims
      (HalideToColi.visit_stmt mutate mutate_stmt (.For name min extent body)) := by
  intro self a self1 h
  rw [HalideToColi.visit_For_eq] at h
  simp only [bind, TM.bind, HalideToColi.pop_loop_dim, TM.modify] at h
  cases hb : mutate_stmt body
      { self with loop_dims := self.loop_dims ++ [⟨name, min, extent⟩] } with
  | ok u s2 =>
    have h2 := hms _ _ _ hb
    simp only [hb] at h
    cases h
    simp only [HalideToColi.same_loop_dims] at h2 ⊢
    rw [h2, List.dropLast_concat]
  | fatal why s2 => simp [hb] at h
  | out_of_fuel => simp [hb] at h

/-- Every visit of a statement node leaves the stack as it found it, provided
the calls back into `mutate` do. -/
theorem HalideToColi.visit_stmt_same_loop_dims {mutate : Expr → TM coli.expr}
    {mutate_stmt : Stmt → TM Unit}
    (hm : ∀ e, TM.Keeps HalideToColi.same_loop_dims (mutate e))
    (hms : ∀ s, TM.Keeps HalideToColi.same_loop_dims (mutate_stmt s)) (s : Stmt) :
    TM.Keeps HalideToColi.same_loop_dims (HalideToColi.visit_stmt mutate mutate_stmt s) := by
  have hr := HalideToColi.same_loop_dims_refl
  have ht := HalideToColi.same_loop_dims_trans
  cases s
  case For name min extent body =>
    exact HalideToColi.visit_For_same_loop_dims mutate name min extent body (hms body)
  case ProducerConsumer name p body =>
    exact fun self a self1 h =>
      HalideToColi.visit_ProducerConsumer_restores mutate mutate_stmt name p body self self1
        (by cases a; exact h)
  all_goals
    simp only [HalideToColi.visit_stmt]
    repeat' first
      | exact TM.Keeps.error
      | exact TM.Keeps.get hr
      | exact TM.Keeps.assert hr _ _
      | exact TM.Keeps.lift hr _
      | exact TM.Keeps.modify (fun _ => rfl)
      | exact TM.Keeps.mutate_each hr ht hm _
      | exact TM.Keeps.provide_args hr ht hm _
      | exact hm _
      | exact hms _
      | refine TM.Keeps.bind ht ?_ (fun _ => ?_)
      | split

/-- The member `mutate(Stmt)` leaves the stack as it found it. -/
theorem HalideToColi.mutate_stmt_same_loop_dims :
    ∀ fuel s, TM.Keeps HalideToColi.same_loop_dims (HalideToColi.mutate_stmt fuel s)
  | 0, _ => by
      intro self a self1 h
      simp [HalideToColi.mutate_stmt] at h
  | fuel + 1, s => by
      unfold HalideToColi.mutate_stmt
      exact HalideToColi.visit_stmt_same_loop_dims (HalideToColi.mutate_same_loop_dims fuel)
        (HalideToColi.mutate_stmt_same_loop_dims fuel) _

/-- C12: the loop-dimension stack follows the loop nesting.  If the
translation of a statement succeeds, `loop_dims` afterwards equals `loop_dims`
before.  The visit of a `For` node runs the translation of its body on the
translator whose `loop_dims` is the previous stack with the one entry (name,
min, extent) of the loop appended, and pops once afterwards; through `mutate`
the node visited is the one `substitute_in_all_lets` returned.  The visit of a
`ProducerConsumer` node that returns has restored the stack it found, whatever
the translation of its body did. -/
theorem loop_dims_follow_loop_nesting (fuel : Nat) (s : Stmt) (self self1 : HalideToColi)
    (h : HalideToColi.mutate_stmt fuel s self = .ok () self1) :
    self1.loop_dims = self.loop_dims ∧
    (∀ (mutate : Expr → TM expr) (mutate_stmt : Stmt → TM Unit) (name : String)
        (min extent : Expr) (body : Stmt) (t : HalideToColi),
      HalideToColi.visit_stmt mutate mutate_stmt (.For name min extent body) t =
        (mutate_stmt body >>= fun _ => HalideToColi.pop_loop_dim)
          { t with loop_dims := t.loop_dims ++ [⟨name, min, extent⟩] }) ∧
    (∀ (n : Nat) (name : String) (min extent : Expr) (body : Stmt) (t : HalideToColi),
      HalideToColi.mutate_stmt (n + 1) (.For name min extent body) t =
        (HalideToColi.mutate_stmt n (substitute_in_all_lets_stmt body) >>=
            fun _ => HalideToColi.pop_loop_dim)
          { t with loop_dims := t.loop_dims ++
              [⟨name, substitute_in_all_lets min, substitute_in_all_lets extent⟩] }) ∧
    (∀ (mutate : Expr → TM expr) (mutate_stmt : Stmt → TM Unit) (name : String)
        (is_producer : Bool) (body : Stmt) (t t1 : HalideToColi),
      HalideToColi.visit_stmt mutate mutate_stmt (.ProducerConsumer name is_producer body) t =
        .ok () t1 → t1.loop_dims = t.loop_dims) := by
  refine ⟨HalideToColi.mutate_stmt_same_loop_dims fuel s self () self1 h, ?_, ?_, ?_⟩
  · intro mutate mutate_stmt name min extent body t
    exact HalideToColi.visit_For_eq mutate mutate_stmt name min extent body t
  · intro n name min extent body t
    simp only [HalideToColi.mutate_stmt, substitute_in_all_lets_stmt]
    exact HalideToColi.visit_For_eq _ _ name _ _ _ t
  · intro mutate mutate_stmt name is_producer body t t1 h1
    exact HalideToColi.visit_ProducerConsumer_restores mutate mutate_stmt name is_producer
      body t t1 h1

/-- Witness for C12: the nest `produce g, for i, allocate f` translated inside
the loop `k` succeeds and leaves the stack `[k]`. -/
theorem loop_dims_follow_loop_nesting_witness :
    HalideToColi.mutate_stmt 4 sample.loop_nest sample.in_loop =
      .ok () { sample.in_loop with
        temporary_buffers := [("buff_f", sample.buff_f)], expr := .int32 4 } ∧
    ({ sample.in_loop with
        temporary_buffers := [("buff_f", sample.buff_f)], expr := .int32 4 } :
      HalideToColi).loop_dims = sample.in_loop.loop_dims :=
  ⟨rfl, (loop_dims_follow_loop_nesting 4 sample.loop_nest sample.in_loop _ rfl).1⟩

/-- The loop over the outputs in `visit(const Allocate *)` computes whether
some output is the same function. -/
theorem is_output_foldl (f : Function) (outputs : List Function) (acc : Bool) :
    outputs.foldl (fun acc o => acc || o.same_as f) acc =
      (acc || outputs.any fun o => o.same_as f) := by
  induction outputs generalizing acc with
  | nil => simp
  | cons o os ih => simp [List.foldl, ih, Bool.or_assoc]

/-- The loop over a vector of expressions returns one translated expression
for each element. -/
theorem mutate_each_length (mutate : Expr → TM expr) :
    ∀ (l : List Expr) (self : HalideToColi) (xs : List expr) (self1 : HalideToColi),
      mutate_each mutate l self = .ok xs self1 → xs.length = l.length
  | [], self, xs, self1, h => by
      cases h
      rfl
  | e :: es, self, xs, self1, h => by
      simp only [mutate_each, bind, TM.bind] at h
      cases h1 : mutate e self with
      | ok x s1 =>
        simp only [h1] at h
        cases h2 : mutate_each mutate es s1 with
        | ok ys s2 =>
          have hl := mutate_each_length mutate es s1 ys s2 h2
          simp only [h2] at h
          cases h
          simp [hl]
        | fatal why s2 => simp [h2] at h
        | out_of_fuel => simp [h2] at h
      | fatal why s1 => simp [h1] at h
      | out_of_fuel => simp [h1] at h

/-- The list version of `substitute_in_all_lets` keeps the length. -/
theorem substituteAll_length :
    ∀ l : List Expr, (substitute_in_all_lets.substituteAll l).length = l.length
  | [] => rfl
  | e :: es => by simp [substitute_in_all_lets.substituteAll, substituteAll_length es]

/-- C13 as stated fails: on a fresh translator, the allocation of `f` with a
16-bit float element type meets none of the three rejection conditions and its
one extent translates, yet the translation aborts, at every call depth at
which it gets that far, because the element type has no coli type. -/
theorem allocate_float16_example :
    sample.fresh.temporary_buffers.count ("buff_" ++ "f") = 0 ∧
    sample.fresh.env.find "f" = some ⟨0⟩ ∧
    (∀ o ∈ sample.fresh.outputs, o.same_as ⟨0⟩ = false) ∧
    mutate_each (HalideToColi.mutate 1) [.IntImm (Int_ 32 1) 4] sample.fresh =
      .ok [.int32 4] { sample.fresh with expr := .int32 4 } ∧
    HalideToColi.mutate_stmt 2 sample.alloc_f16 sample.fresh =
      .fatal (.error "Floats other than 32 and 64 bits are not suppored in Coli.")
        { sample.fresh with expr := .int32 4 } ∧
    (∀ n self1, HalideToColi.mutate_stmt n sample.alloc_f16 sample.fresh ≠ .ok () self1) := by
  refine ⟨rfl, rfl, by decide, rfl, rfl, fun n self1 => ?_⟩
  match n with
  | 0 => simp [HalideToColi.mutate_stmt]
  | 1 => exact fun h => by cases h
  | n + 2 =>
    have hm : HalideToColi.mutate (n + 1) (.IntImm (Int_ 32 1) 4) sample.fresh =
        .ok (.int32 4) { sample.fresh with expr := .int32 4 } := rfl
    have : HalideToColi.mutate_stmt (n + 2) sample.alloc_f16 sample.fresh =
        .fatal (.error "Floats other than 32 and 64 bits are not suppored in Coli.")
          { sample.fresh with expr := .int32 4 } := by
      simp only [HalideToColi.mutate_stmt, sample.alloc_f16, substitute_in_all_lets_stmt,
        substitute_in_all_lets.substituteAll, substitute_in_all_lets, HalideToColi.visit_stmt,
        bind, TM.bind, TM.get, mutate_each, hm]
      rfl
    rw [this]
    exact fun h => by cases h

/-- C13, amended: the translation of an `Allocate` node named `n` is stopped
by an assertion, with the translator untouched, when a temporary buffer named
`"buff_" + n` exists, when `n` is not a key of `env`, or when `env[n]` is one
of the outputs.  When none of these holds, every extent translates and the
element type of the node has a coli type, the translation succeeds:
`temporary_buffers` gains exactly one entry, put after the existing ones under
the key `"buff_" + n`, which was not a key before; the new buffer has as many
dimensions as the node has extents; and apart from that entry and the member
`expr` the translator, `computation_list` included, is unchanged. -/
theorem allocate_translation (fuel : Nat) (name : String) (type : Type_)
    (extents : List Expr) (condition : Expr) (body : Stmt) (self : HalideToColi) :
    ((self.temporary_buffers.count ("buff_" ++ name) ≠ 0 ∨ self.env.find name = none ∨
        ∃ f, self.env.find name = some f ∧ ∃ o ∈ self.outputs, o.same_as f = true) →
      ∃ message, HalideToColi.mutate_stmt (fuel + 1)
        (.Allocate name type extents condition body) self =
          .fatal (.assertion message) self) ∧
    (∀ (f : Function) (xs : List expr) (self1 : HalideToColi) (t : primitive_t),
      self.temporary_buffers.count ("buff_" ++ name) = 0 →
      self.env.find name = some f →
      (∀ o ∈ self.outputs, o.same_as f = false) →
      mutate_each (HalideToColi.mutate fuel) (substitute_in_all_lets.substituteAll extents)
        self = .ok xs self1 →
      halide_type_to_coli_type type = .ok t →
      HalideToColi.mutate_stmt (fuel + 1) (.Allocate name type extents condition body) self =
          .ok () { self with
            expr := self1.expr
            temporary_buffers := self.temporary_buffers ++
              [("buff_" ++ name, ⟨"buff_" ++ name, extents.length, xs, t, .a_temporary⟩)] } ∧
        xs.length = extents.length ∧
        self.temporary_buffers.find ("buff_" ++ name) = none) := by
  constructor
  · intro h
    simp only [HalideToColi.mutate_stmt, substitute_in_all_lets_stmt, HalideToColi.visit_stmt,
      bind, TM.bind, TM.get, TM.assert]
    by_cases hc : self.temporary_buffers.count ("buff_" ++ name) = 0
    · cases he : self.env.find name with
      | none => exact ⟨"Cannot find function in env.\n", by simp [hc, TM.assert]⟩
      | some f =>
        rcases h with h | h | ⟨g, hg, o, ho, hog⟩
        · exact absurd hc h
        · rw [he] at h; cases h
        · rw [he] at hg
          cases hg
          have hany : (self.outputs.any fun o => o.same_as f) = true :=
            List.any_eq_true.mpr ⟨o, ho, hog⟩
          exact ⟨"Allocate should have been temporary buffer.\n",
            by simp [hc, is_output_foldl, hany, TM.assert, TM.bind]⟩
    · exact ⟨"Find duplicate temporary buffer allocation.\n", by simp [hc]⟩
  · intro f xs self1 t hc he hout hx ht
    have hany : (self.outputs.any fun o => o.same_as f) = false := by
      rw [Bool.eq_false_iff]
      intro h
      obtain ⟨o, ho, hog⟩ := List.any_eq_true.mp h
      rw [hout o ho] at hog
      cases hog
    have hframe : self1 = { self with expr := self1.expr } :=
      TM.Keeps.mutate_each HalideToColi.same_but_expr_refl HalideToColi.same_but_expr_trans
        (HalideToColi.mutate_same_but_expr fuel) _ self xs self1 hx
    have hlen : xs.length = extents.length := by
      rw [mutate_each_length _ _ _ _ _ hx, substituteAll_length]
    have hfind : self.temporary_buffers.find ("buff_" ++ name) = none := by
      unfold map.count at hc
      cases hf : self.temporary_buffers.find ("buff_" ++ name) with
      | none => rfl
      | some b => simp [hf] at hc
    refine ⟨?_, hlen, hfind⟩
    have hfind1 : self1.temporary_buffers.find ("buff_" ++ name) = none := by
      rw [hframe]; exact hfind
    simp only [HalideToColi.mutate_stmt, substitute_in_all_lets_stmt, HalideToColi.visit_stmt,
      bind, TM.bind, TM.get, TM.assert, hc, he, is_output_foldl, hany, ht, TM.lift,
      TM.modify, map.emplace]
    simp only [decide_True, if_true, Bool.false_or, Bool.not_false, TM.bind, TM.assert, hx]
    simp only [hfind1, hlen, Option.isSome_none, Bool.false_eq_true, if_false]
    rw [hframe]

/-- Witness for C13: on a fresh translator the allocation of `f` with one
extent and a 32-bit integer element type succeeds and adds `buff_f`; on the
translator that results, where `buff_f` exists, the same allocation is
rejected. -/
theorem allocate_translation_witness :
    sample.fresh.temporary_buffers.count ("buff_" ++ "f") = 0 ∧
    sample.fresh.env.find "f" = some ⟨0⟩ ∧
    (∀ o ∈ sample.fresh.outputs, o.same_as ⟨0⟩ = false) ∧
    mutate_each (HalideToColi.mutate 1)
        (substitute_in_all_lets.substituteAll [.IntImm (Int_ 32 1) 4]) sample.fresh =
      .ok [.int32 4] { sample.fresh with expr := .int32 4 } ∧
    halide_type_to_coli_type (Int_ 32 1) = .ok .p_int32 ∧
    (HalideToColi.mutate_stmt 2 sample.alloc_f sample.fresh =
        .ok () { sample.fresh with
          expr := .int32 4
          temporary_buffers := sample.fresh.temporary_buffers ++
            [("buff_" ++ "f", ⟨"buff_" ++ "f", 1, [.int32 4], .p_int32, .a_temporary⟩)] } ∧
      [expr.int32 4].length = [Expr.IntImm (Int_ 32 1) 4].length ∧
      sample.fresh.temporary_buffers.find ("buff_" ++ "f") = none) ∧
    sample.after_alloc_f.temporary_buffers.count ("buff_" ++ "f") ≠ 0 ∧
    (∃ message, HalideToColi.mutate_stmt 2 sample.alloc_f sample.after_alloc_f =
      .fatal (.assertion message) sample.after_alloc_f) :=
  ⟨rfl, rfl, by decide, rfl, rfl,
    (allocate_translation 1 "f" (Int_ 32 1) [.IntImm (Int_ 32 1) 4] (.UIntImm (Bool_ 1) 1)
      (.Evaluate (.IntImm (Int_ 32 1) 0)) sample.fresh).2 ⟨0⟩ [.int32 4]
      { sample.fresh with expr := .int32 4 } .p_int32 rfl rfl (by decide) rfl rfl,
    by decide,
    (allocate_translation 1 "f" (Int_ 32 1) [.IntImm (Int_ 32 1) 4] (.UIntImm (Bool_ 1) 1)
      (.Evaluate (.IntImm (Int_ 32 1) 0)) sample.after_alloc_f).1 (Or.inl (by decide))⟩

end coli
